import Mathlib

/-!
# Verification of the `SJCVector` dynamic-array container

A shallow embedding of the `SJCVector` class (the `std::unique_ptr<T[]>`
template variant included by `main.cpp`, instantiated at `T = int`, with the
`BY_VAL_OPERATOR` assignment operator that the source selects), together with
the raw-pointer template variant's `resize` copy bound where the two variants
differ.

Heap cells model the arrays owned through `unique_ptr<T[]>` / `new T[]`: a
pointer is an index into a list of cells, a cell is `some` array while
allocated and `none` once freed.  `std::make_unique<int[]>(n)` and
`new T[n]()` value-initialize, so a fresh cell holds `n` zeros.  Writes that
the C++ code would perform out of the bounds of the destination buffer are
clipped to the buffer (they do not land in the container's own cell); the
count of elements the code asks `std::copy` to transfer is modelled
separately so that out-of-bounds transfers remain visible.
-/

abbrev Ptr := Nat

/-- The allocator state: cell `p` is the array owned by pointer `p`,
`none` after deallocation. -/
structure Heap where
  cells : List (Option (List Int))
deriving DecidableEq

/-- Look up the cell a pointer designates (out-of-range pointers designate
no cell). -/
def Heap.cell (h : Heap) (p : Ptr) : Option (List Int) :=
  (h.cells[p]?).getD none

/-- `make_unique<int[]>(n)`: a fresh zero-initialized cell; the new pointer is
the next free index. -/
def Heap.alloc (h : Heap) (n : Nat) : Heap × Ptr :=
  (⟨h.cells ++ [some (List.replicate n 0)]⟩, h.cells.length)

/-- Overwrite the array owned by `p`. -/
def Heap.writeCell (h : Heap) (p : Ptr) (a : List Int) : Heap :=
  ⟨h.cells.set p (some a)⟩

/-- Release the array owned by `p` (as the `unique_ptr` destructor or a
reassignment does). -/
def Heap.free (h : Heap) (p : Ptr) : Heap :=
  ⟨h.cells.set p none⟩

/-- The data members of `SJCVector` that carry the container's value:
`ptr_` (`none` models a null `unique_ptr`), `size_` (the capacity) and
`last_` (index of the highest occupied slot, `-1` when empty).  `first_` is
always `0` and `name_` is display-only; neither affects any operation's
result, so they are omitted. -/
structure SJCVector where
  ptr : Option Ptr
  size : Nat
  last : Int
deriving DecidableEq

/-- Occupied-slot count `last_ + 1`. -/
def SJCVector.occupied (v : SJCVector) : Int := v.last + 1

/-- `initSJCVector(initialSize)` wrapped as construction: allocate exactly
`initialSize` slots (no minimum is imposed), `last_ = -1`. -/
def mkSJCVector (h : Heap) (c : Nat) : Heap × SJCVector :=
  let (h1, p) := h.alloc c
  (h1, { ptr := some p, size := c, last := -1 })

/-- The array a container's `ptr_` currently points at (`[]` for null). -/
def readBuf (h : Heap) (v : SJCVector) : List Int :=
  match v.ptr with
  | some q => (h.cell q).getD []
  | none => []

/-- `std::copy(src, src + n, dst)` into a buffer holding `dst`: writes beyond
the destination's extent are clipped (they fall outside the cell). -/
def listCopy (src dst : List Int) (n : Nat) : List Int :=
  src.take (min n dst.length) ++ dst.drop (min n dst.length)

/-- The copy constructor: `initSJCVector(rhs.size_)` then
`std::copy(srcBegin, next(srcBegin, size_), ptr_.get())` (the whole
`size_`-slot buffer), then `last_ = rhs.last_`. -/
def copyCtor (h : Heap) (rhs : SJCVector) : Heap × SJCVector :=
  let (h1, p) := h.alloc rhs.size
  let h2 := h1.writeCell p (listCopy (readBuf h rhs) (List.replicate rhs.size 0) rhs.size)
  (h2, { ptr := some p, size := rhs.size, last := rhs.last })

/-- The move constructor: `std::exchange` on each member — the destination
steals `ptr_`, `size_`, `last_`; the source is left null, capacity `0`,
`last_ = emptyVec = -1`.  Returns (destination, source-after-move). -/
def moveCtor (v : SJCVector) : SJCVector × SJCVector :=
  ({ ptr := v.ptr, size := v.size, last := v.last },
   { ptr := none, size := 0, last := -1 })

/-- Member `swap`: exchanges `ptr_`, `size_`, `first_`, `last_` — every
modelled field, so the two records trade places. -/
def SJCVector.swap (a b : SJCVector) : SJCVector × SJCVector := (b, a)

/-- The destructor: the owned cell (if any) is released. -/
def destruct (h : Heap) (v : SJCVector) : Heap :=
  match v.ptr with
  | some p => h.free p
  | none => h

/-- The `if (newSize == 0) newSize = 1;` coercion at the top of `resize(size_t)`. -/
def coerceSize (newSize0 : Nat) : Nat :=
  if newSize0 = 0 then 1 else newSize0

/-- The count of elements `resize(size_t)` in the `unique_ptr` variants hands
to `std::copy` when there is data to move (`last_ >= 0`): the call is
`std::copy(srcBegin, std::next(srcBegin, size_), newptr.get())`, i.e. `size_`
elements, independent of the new buffer's capacity. -/
def resizeCopyCount (v : SJCVector) : Nat := v.size

/-- The count of elements the raw-pointer template variant's
`resize(size_t)` copies: after coercing `newSize` 0 → 1 and clamping `last_`,
the call is `std::copy(ptr_, ptr_ + last_ + 1, newptr)`. -/
def rawResizeCopyCount (v : SJCVector) (newSize0 : Nat) : Nat :=
  let newSize := coerceSize newSize0
  if (newSize : Int) ≤ v.last then newSize else (v.last + 1).toNat

/-- `resize(size_t newSize)` of the `unique_ptr` variant: coerce `0` to `1`,
allocate, copy `size_` elements when `last_ >= 0` (clamping `last_` first
when `newSize <= last_`), release the old buffer via
`ptr_ = std::move(newptr)`, record the new capacity. -/
def resizeN (h : Heap) (v : SJCVector) (newSize0 : Nat) : Heap × SJCVector :=
  let newSize := coerceSize newSize0
  let (h1, p) := h.alloc newSize
  if 0 ≤ v.last then
    let last' : Int := if (newSize : Int) ≤ v.last then (newSize : Int) - 1 else v.last
    let h2 := h1.writeCell p (listCopy (readBuf h v) (List.replicate newSize 0) v.size)
    let h3 := match v.ptr with
      | some q => h2.free q
      | none => h2
    (h3, { ptr := some p, size := newSize, last := last' })
  else
    let h3 := match v.ptr with
      | some q => h1.free q
      | none => h1
    (h3, { ptr := some p, size := newSize, last := v.last })

/-- The zero-argument `resize()`: geometric growth `resize(size_ * 2 + 1)`. -/
def resizeGrow (h : Heap) (v : SJCVector) : Heap × SJCVector :=
  resizeN h v (v.size * 2 + 1)

/-- `push_back(newValue)`: grow when `size_ == last_ + 1` or `size_ == 0`;
then insert at `++last_` if `size_ > last_ + 1`, else the defensive
"push_back fail due to full" branch leaves the container unchanged. -/
def push_back (h : Heap) (v : SJCVector) (x : Int) : Heap × SJCVector :=
  let grown :=
    if (v.size : Int) = v.last + 1 ∨ v.size = 0 then resizeN h v (v.size * 2 + 1)
    else (h, v)
  let h1 := grown.1
  let v1 := grown.2
  if (v1.size : Int) > v1.last + 1 then
    let last' := v1.last + 1
    let h2 := match v1.ptr with
      | some p => h1.writeCell p (((h1.cell p).getD []).set last'.toNat x)
      | none => h1
    (h2, { v1 with last := last' })
  else
    (h1, v1)

/-- Fold `push_back` over a list of values. -/
def pushList (h : Heap) (v : SJCVector) : List Int → Heap × SJCVector
  | [] => (h, v)
  | x :: xs =>
    let r := push_back h v x
    pushList r.1 r.2 xs

/-- `operator+`: reject when either `size_` (capacity) is `0` or the `last_`
cursors differ, returning a default-constructed `SJCVector()` (capacity 1,
empty); otherwise copy-construct `retVec` from `*this` and add
`rhs.ptr_[i]` into `retVec.ptr_[i]` for `i = 0 .. last_`. -/
def opAdd (h : Heap) (a b : SJCVector) : Heap × SJCVector :=
  if b.size = 0 ∨ a.size = 0 ∨ b.last ≠ a.last then
    mkSJCVector h 1
  else
    let h1 := (copyCtor h a).1
    let r := (copyCtor h a).2
    let n : Nat := (a.last + 1).toNat
    let h2 := match r.ptr, b.ptr with
      | some p, some q =>
        let x := (h1.cell p).getD []
        let y := (h1.cell q).getD []
        h1.writeCell p (List.zipWith (· + ·) (x.take n) (y.take n) ++ x.drop n)
      | _, _ => h1
    (h2, r)

/-- The by-value `operator=` applied to an lvalue argument: the parameter is
built by the copy constructor, `copy.swap(*this)`, and the parameter
(now holding the target's old state) is destroyed when the operator
returns. -/
def assignCopy (h : Heap) (target rhs : SJCVector) : Heap × SJCVector :=
  let h1 := (copyCtor h rhs).1
  let c := (copyCtor h rhs).2
  let s := SJCVector.swap c target
  (destruct h1 s.1, s.2)

/-- Self-assignment `a = a` through the by-value `operator=`. -/
def selfAssign (h : Heap) (a : SJCVector) : Heap × SJCVector :=
  assignCopy h a a

/-- The by-value `operator=` applied to an rvalue argument: the parameter is
built by the move constructor (emptying `rhs`), `copy.swap(*this)`, and the
parameter (the target's old state) is destroyed.  Returns
(heap, new target, `rhs` after being moved from). -/
def assignMove (h : Heap) (target rhs : SJCVector) : Heap × SJCVector × SJCVector :=
  let c := (moveCtor rhs).1
  let s := SJCVector.swap c target
  (destruct h s.1, s.2, (moveCtor rhs).2)

/-- The occupied slots as an observer: the first `last_ + 1` entries of the
owned buffer (what `printItems` shows and what `operator+` consumes). -/
def contents (h : Heap) (v : SJCVector) : List Int :=
  (readBuf h v).take (v.last + 1).toNat

/-- Heap consistency of a container: its pointer owns a live cell of exactly
`size_` slots, or it is null with capacity `0` (the moved-from state). -/
def Valid (h : Heap) (v : SJCVector) : Prop :=
  match v.ptr with
  | some p => (h.cell p).map List.length = some v.size
  | none => v.size = 0

/-- The spec's state invariant `0 ≤ lastIndex + 1 ≤ capacity`. -/
def SJCInv (v : SJCVector) : Prop :=
  0 ≤ v.last + 1 ∧ v.last + 1 ≤ (v.size : Int)

instance (h : Heap) (v : SJCVector) : Decidable (Valid h v) := by
  unfold Valid; exact match v.ptr with
    | some _ => inferInstance
    | none => inferInstance

instance (v : SJCVector) : Decidable (SJCInv v) := by
  unfold SJCInv; exact inferInstance


/-- First step of the demo trace in `main`: `SJCVector n("nigel")` — the name
constructor's default capacity argument is `1` — on a fresh heap. -/
def mainTrace0 : Heap × SJCVector := mkSJCVector ⟨[]⟩ 1

/-- Second step of the demo trace: `n.push_back(3)`. -/
def mainTrace1 : Heap × SJCVector := push_back mainTrace0.1 mainTrace0.2 3

/-- Third step of the demo trace: `n.push_back(56)`. -/
def mainTrace2 : Heap × SJCVector := push_back mainTrace1.1 mainTrace1.2 56

/-- Container records reachable through the public operations: construction
with any capacity (covering all three constructors), copy construction, both
results of move construction, `push_back`, `resize`, `operator+`, and the
by-value assignment operator in its copy and move uses.  Member `swap` maps a
pair of records to the same two records exchanged, so it adds nothing new. -/
inductive Reachable : SJCVector → Prop where
  | ctor (h : Heap) (c : Nat) : Reachable (mkSJCVector h c).2
  | copy (h : Heap) (a : SJCVector) : Reachable a → Reachable (copyCtor h a).2
  | moveDst (a : SJCVector) : Reachable a → Reachable (moveCtor a).1
  | moveSrc (a : SJCVector) : Reachable a → Reachable (moveCtor a).2
  | push (h : Heap) (a : SJCVector) (x : Int) : Reachable a → Reachable (push_back h a x).2
  | resize (h : Heap) (a : SJCVector) (n : Nat) : Reachable a → Reachable (resizeN h a n).2
  | add (h : Heap) (a b : SJCVector) : Reachable a → Reachable b → Reachable (opAdd h a b).2
  | acopy (h : Heap) (t r : SJCVector) : Reachable t → Reachable r →
      Reachable (assignCopy h t r).2
  | amoveDst (h : Heap) (t r : SJCVector) : Reachable t → Reachable r →
      Reachable (assignMove h t r).2.1
  | amoveSrc (h : Heap) (t r : SJCVector) : Reachable t → Reachable r →
      Reachable (assignMove h t r).2.2

/-! ## Heap lemmas -/

theorem Heap.length_alloc (h : Heap) (n : Nat) :
    ((h.alloc n).1).cells.length = h.cells.length + 1 := by
  simp [Heap.alloc]

theorem Heap.length_writeCell (h : Heap) (q : Ptr) (a : List Int) :
    (h.writeCell q a).cells.length = h.cells.length := by
  simp [Heap.writeCell]

theorem Heap.length_free (h : Heap) (q : Ptr) :
    (h.free q).cells.length = h.cells.length := by
  simp [Heap.free]

theorem Heap.cell_alloc_lt (h : Heap) (n : Nat) {p : Ptr} (hp : p < h.cells.length) :
    ((h.alloc n).1).cell p = h.cell p := by
  simp [Heap.alloc, Heap.cell, List.getElem?_append_left hp]

theorem Heap.cell_alloc_self (h : Heap) (n : Nat) :
    ((h.alloc n).1).cell h.cells.length = some (List.replicate n 0) := by
  simp [Heap.alloc, Heap.cell, List.getElem?_concat_length]

theorem Heap.cell_writeCell_ne (h : Heap) {q : Ptr} (a : List Int) {p : Ptr} (hne : p ≠ q) :
    (h.writeCell q a).cell p = h.cell p := by
  simp [Heap.writeCell, Heap.cell, List.getElem?_set_ne (Ne.symm hne)]

theorem Heap.cell_writeCell_self (h : Heap) {q : Ptr} (a : List Int)
    (hq : q < h.cells.length) : (h.writeCell q a).cell q = some a := by
  simp [Heap.writeCell, Heap.cell, List.getElem?_set_eq_of_lt _ hq]

theorem Heap.cell_free_ne (h : Heap) {q p : Ptr} (hne : p ≠ q) :
    (h.free q).cell p = h.cell p := by
  simp [Heap.free, Heap.cell, List.getElem?_set_ne (Ne.symm hne)]

theorem Heap.cell_free_self (h : Heap) {q : Ptr} (hq : q < h.cells.length) :
    (h.free q).cell q = none := by
  simp [Heap.free, Heap.cell, List.getElem?_set_eq_of_lt _ hq]

theorem Heap.cell_some_lt {h : Heap} {p : Ptr} {arr : List Int}
    (hc : h.cell p = some arr) : p < h.cells.length := by
  by_contra hn
  push_neg at hn
  simp [Heap.cell, List.getElem?_eq_none hn] at hc

/-! ## Validity lemmas -/

theorem Valid.cell_eq {h : Heap} {v : SJCVector} {p : Ptr}
    (hv : Valid h v) (hp : v.ptr = some p) :
    ∃ arr, h.cell p = some arr ∧ arr.length = v.size := by
  unfold Valid at hv
  rw [hp] at hv
  rcases Option.map_eq_some'.mp hv with ⟨arr, harr, hlen⟩
  exact ⟨arr, harr, hlen⟩

theorem Valid.ptr_lt {h : Heap} {v : SJCVector} {p : Ptr}
    (hv : Valid h v) (hp : v.ptr = some p) : p < h.cells.length := by
  rcases hv.cell_eq hp with ⟨arr, harr, _⟩
  exact Heap.cell_some_lt harr

/-! ## Copy-constructor lemmas -/

theorem copyCtor_eq (h : Heap) (rhs : SJCVector) :
    copyCtor h rhs =
      ((h.alloc rhs.size).1.writeCell h.cells.length
        (listCopy (readBuf h rhs) (List.replicate rhs.size 0) rhs.size),
       ⟨some h.cells.length, rhs.size, rhs.last⟩) := rfl

theorem copyCtor_length (h : Heap) (rhs : SJCVector) :
    (copyCtor h rhs).1.cells.length = h.cells.length + 1 := by
  rw [copyCtor_eq]
  simp [Heap.length_writeCell, Heap.length_alloc]

theorem copyCtor_cell_frame (h : Heap) (rhs : SJCVector) {p : Ptr}
    (hp : p < h.cells.length) :
    (copyCtor h rhs).1.cell p = h.cell p := by
  rw [copyCtor_eq]
  show ((h.alloc rhs.size).1.writeCell h.cells.length _).cell p = h.cell p
  rw [Heap.cell_writeCell_ne _ _ (Nat.ne_of_lt hp)]
  exact Heap.cell_alloc_lt _ _ hp

theorem listCopy_full {arr : List Int} {n : Nat} (hlen : arr.length = n) :
    listCopy arr (List.replicate n 0) n = arr := by
  subst hlen
  simp [listCopy]

theorem copyCtor_cell_self (h : Heap) (rhs : SJCVector) :
    (copyCtor h rhs).1.cell h.cells.length =
      some (listCopy (readBuf h rhs) (List.replicate rhs.size 0) rhs.size) := by
  rw [copyCtor_eq]
  exact Heap.cell_writeCell_self _ _ (by simp [Heap.length_alloc])

theorem copyCtor_cell_self_of_valid {h : Heap} {rhs : SJCVector} {q : Ptr} {arr : List Int}
    (hq : rhs.ptr = some q) (hc : h.cell q = some arr) (hlen : arr.length = rhs.size) :
    (copyCtor h rhs).1.cell h.cells.length = some arr := by
  rw [copyCtor_cell_self]
  have hbuf : readBuf h rhs = arr := by simp [readBuf, hq, hc]
  rw [hbuf, listCopy_full hlen]

theorem contents_congr {h h' : Heap} {v : SJCVector}
    (hc : ∀ p, v.ptr = some p → h'.cell p = h.cell p) :
    contents h' v = contents h v := by
  unfold contents readBuf
  cases hv : v.ptr with
  | none => rfl
  | some p =>
    dsimp only
    rw [hc p hv]

/-! ## `resize` lemmas -/

theorem resizeN_ptr (h : Heap) (v : SJCVector) (n0 : Nat) :
    (resizeN h v n0).2.ptr = some h.cells.length := by
  unfold resizeN
  split <;> rfl

theorem resizeN_size (h : Heap) (v : SJCVector) (n0 : Nat) :
    (resizeN h v n0).2.size = coerceSize n0 := by
  unfold resizeN
  split <;> rfl

theorem resizeN_last (h : Heap) (v : SJCVector) (n0 : Nat) :
    (resizeN h v n0).2.last =
      if 0 ≤ v.last then
        (if (coerceSize n0 : Int) ≤ v.last then (coerceSize n0 : Int) - 1 else v.last)
      else v.last := by
  unfold resizeN
  split <;> rfl

theorem coerceSize_pos (n0 : Nat) : 1 ≤ coerceSize n0 := by
  unfold coerceSize
  split <;> omega

theorem resizeN_inv (h : Heap) (v : SJCVector) (n0 : Nat) (hv : SJCInv v) :
    SJCInv (resizeN h v n0).2 := by
  obtain ⟨h1, h2⟩ := hv
  have hm := coerceSize_pos n0
  constructor
  · rw [resizeN_last]
    split <;> try split
    all_goals omega
  · rw [resizeN_last, resizeN_size]
    split <;> try split
    all_goals omega

theorem resizeN_cell_frame (h : Heap) (v : SJCVector) (n0 : Nat) {p : Ptr}
    (hp : p < h.cells.length) (hne : v.ptr ≠ some p) :
    (resizeN h v n0).1.cell p = h.cell p := by
  have hfresh : p ≠ h.cells.length := Nat.ne_of_lt hp
  unfold resizeN
  split
  · show ((match v.ptr with
      | some q => (((h.alloc (coerceSize n0)).1.writeCell h.cells.length _).free q)
      | none => ((h.alloc (coerceSize n0)).1.writeCell h.cells.length _)).cell p) = h.cell p
    cases hq : v.ptr with
    | none =>
      rw [Heap.cell_writeCell_ne _ _ hfresh]
      exact Heap.cell_alloc_lt _ _ hp
    | some q =>
      have hpq : p ≠ q := fun hh => hne (by rw [hq, hh])
      rw [Heap.cell_free_ne _ hpq, Heap.cell_writeCell_ne _ _ hfresh]
      exact Heap.cell_alloc_lt _ _ hp
  · show ((match v.ptr with
      | some q => ((h.alloc (coerceSize n0)).1.free q)
      | none => (h.alloc (coerceSize n0)).1).cell p) = h.cell p
    cases hq : v.ptr with
    | none => exact Heap.cell_alloc_lt _ _ hp
    | some q =>
      have hpq : p ≠ q := fun hh => hne (by rw [hq, hh])
      rw [Heap.cell_free_ne _ hpq]
      exact Heap.cell_alloc_lt _ _ hp

/-! ## `push_back` lemmas -/

theorem coerceSize_of_ne_zero {n0 : Nat} (hn : n0 ≠ 0) : coerceSize n0 = n0 := by
  simp [coerceSize, hn]

theorem push_back_size (h : Heap) (v : SJCVector) (x : Int) :
    (push_back h v x).2.size =
      if (v.size : Int) = v.last + 1 ∨ v.size = 0 then 2 * v.size + 1 else v.size := by
  unfold push_back
  dsimp only
  by_cases hg : (v.size : Int) = v.last + 1 ∨ v.size = 0
  · simp only [if_pos hg]
    have hsz : (resizeN h v (v.size * 2 + 1)).2.size = v.size * 2 + 1 := by
      rw [resizeN_size, coerceSize_of_ne_zero (by omega)]
    split <;> dsimp only <;> rw [hsz] <;> omega
  · simp only [if_neg hg]
    split <;> rfl

theorem push_back_last_of_inv (h : Heap) (v : SJCVector) (x : Int) (hv : SJCInv v) :
    (push_back h v x).2.last = v.last + 1 := by
  obtain ⟨hv1, hv2⟩ := hv
  unfold push_back
  dsimp only
  by_cases hg : (v.size : Int) = v.last + 1 ∨ v.size = 0
  · simp only [if_pos hg]
    have hsz : (resizeN h v (v.size * 2 + 1)).2.size = v.size * 2 + 1 := by
      rw [resizeN_size, coerceSize_of_ne_zero (by omega)]
    have hlast : (resizeN h v (v.size * 2 + 1)).2.last = v.last := by
      rw [resizeN_last, coerceSize_of_ne_zero (by omega)]
      split <;> try split
      all_goals omega
    have hcond : ((resizeN h v (v.size * 2 + 1)).2.size : Int) >
        (resizeN h v (v.size * 2 + 1)).2.last + 1 := by
      rw [hsz, hlast]
      rcases hg with h' | h' <;> omega
    rw [if_pos hcond]
    dsimp only
    rw [hlast]
  · simp only [if_neg hg]
    have hcond : (v.size : Int) > v.last + 1 := by
      rw [not_or] at hg
      rcases hg with ⟨h1, h2⟩
      omega
    rw [if_pos hcond]

theorem push_back_inv (h : Heap) (v : SJCVector) (x : Int) (hv : SJCInv v) :
    SJCInv (push_back h v x).2 := by
  have hl := push_back_last_of_inv h v x hv
  have hs := push_back_size h v x
  obtain ⟨hv1, hv2⟩ := hv
  constructor
  · omega
  · rw [hl, hs]
    split <;> push_cast <;> omega

theorem push_back_cell_frame (h : Heap) (v : SJCVector) (x : Int) {p : Ptr}
    (hp : p < h.cells.length) (hne : v.ptr ≠ some p) :
    (push_back h v x).1.cell p = h.cell p := by
  unfold push_back
  dsimp only
  by_cases hg : (v.size : Int) = v.last + 1 ∨ v.size = 0
  · simp only [if_pos hg]
    have hframe := resizeN_cell_frame h v (v.size * 2 + 1) hp hne
    have hptr := resizeN_ptr h v (v.size * 2 + 1)
    split
    · dsimp only
      rw [hptr]
      dsimp only
      rw [Heap.cell_writeCell_ne _ _ (Nat.ne_of_lt hp)]
      exact hframe
    · exact hframe
  · simp only [if_neg hg]
    split
    · dsimp only
      cases hq : v.ptr with
      | none => rfl
      | some q =>
        dsimp only
        have hpq : p ≠ q := fun hh => hne (by rw [hq, hh])
        exact Heap.cell_writeCell_ne _ _ hpq
    · rfl

theorem pushList_last_of_inv (xs : List Int) :
    ∀ (h : Heap) (v : SJCVector), SJCInv v →
      (pushList h v xs).2.last = v.last + xs.length ∧ SJCInv (pushList h v xs).2 := by
  induction xs with
  | nil =>
    intro h v hv
    exact ⟨by simp [pushList], hv⟩
  | cons x xs ih =>
    intro h v hv
    have h1 := push_back_last_of_inv h v x hv
    have h2 := push_back_inv h v x hv
    have h3 := ih (push_back h v x).1 (push_back h v x).2 h2
    unfold pushList
    dsimp only
    refine ⟨?_, h3.2⟩
    rw [h3.1, h1]
    simp only [List.length_cons]
    push_cast
    ring

/-! ## Record-level equations -/

theorem mkSJCVector_snd (h : Heap) (c : Nat) :
    (mkSJCVector h c).2 = ⟨some h.cells.length, c, -1⟩ := rfl

theorem copyCtor_ptr (h : Heap) (rhs : SJCVector) :
    (copyCtor h rhs).2.ptr = some h.cells.length := rfl

theorem assignCopy_eq (h : Heap) (t r : SJCVector) :
    assignCopy h t r = (destruct (copyCtor h r).1 t, (copyCtor h r).2) := rfl

theorem assignMove_eq (h : Heap) (t r : SJCVector) :
    assignMove h t r = (destruct h t, (moveCtor r).1, (moveCtor r).2) := rfl

theorem mkSJCVector_inv (h : Heap) (c : Nat) : SJCInv (mkSJCVector h c).2 := by
  rw [mkSJCVector_snd]
  constructor <;> dsimp <;> omega

theorem copyCtor_readBuf_of_valid {h : Heap} {a : SJCVector} (hv : Valid h a) :
    (copyCtor h a).1.cell h.cells.length = some (readBuf h a) := by
  cases hpa : a.ptr with
  | none =>
    have hsz : a.size = 0 := by
      unfold Valid at hv
      rw [hpa] at hv
      exact hv
    rw [copyCtor_cell_self]
    have hbuf : readBuf h a = [] := by simp [readBuf, hpa]
    rw [hbuf, hsz]
    simp [listCopy]
  | some q =>
    rcases hv.cell_eq hpa with ⟨arr, hcell, hlen⟩
    have hbuf : readBuf h a = arr := by simp [readBuf, hpa, hcell]
    rw [hbuf]
    exact copyCtor_cell_self_of_valid hpa hcell hlen

theorem valid_ptr_ne_fresh {h : Heap} {a : SJCVector} (hv : Valid h a) :
    a.ptr ≠ some h.cells.length := by
  cases hpa : a.ptr with
  | none => simp
  | some q =>
    intro hcontra
    have hlt : q < h.cells.length := hv.ptr_lt hpa
    rw [Option.some.injEq] at hcontra
    exact absurd hcontra (Nat.ne_of_lt hlt)

/-! ## Claim theorems -/

/-- C1: `push_back` triggers capacity growth exactly when the container is
full (`size_ == last_ + 1`) or the capacity is `0`, and the new capacity is
`2*capacity + 1`; under the state invariant that trigger holds exactly when
one more occupied slot would exceed the current capacity; and after `k`
appends on a freshly constructed container (any requested capacity) the
occupied-count is `k` and the capacity is at least `k`. -/
theorem C1_append_growth :
    (∀ (h : Heap) (v : SJCVector) (x : Int),
      (push_back h v x).2.size =
        if (v.size : Int) = v.last + 1 ∨ v.size = 0 then 2 * v.size + 1 else v.size) ∧
    (∀ v : SJCVector, SJCInv v →
      (((v.size : Int) = v.last + 1 ∨ v.size = 0) ↔ (v.size : Int) < v.occupied + 1)) ∧
    (∀ (h : Heap) (c : Nat) (xs : List Int),
      (pushList (mkSJCVector h c).1 (mkSJCVector h c).2 xs).2.occupied = (xs.length : Int) ∧
      (xs.length : Int) ≤ ((pushList (mkSJCVector h c).1 (mkSJCVector h c).2 xs).2.size : Int)) := by
  refine ⟨push_back_size, ?_, ?_⟩
  · intro v hv
    obtain ⟨h1, h2⟩ := hv
    unfold SJCVector.occupied
    constructor
    · rintro (hfull | hzero) <;> omega
    · intro hlt
      exact Or.inl (by omega)
  · intro h c xs
    obtain ⟨hlast, hinv⟩ :=
      pushList_last_of_inv xs (mkSJCVector h c).1 (mkSJCVector h c).2 (mkSJCVector_inv h c)
    have hmklast : (mkSJCVector h c).2.last = -1 := rfl
    rw [hmklast] at hlast
    obtain ⟨hi1, hi2⟩ := hinv
    unfold SJCVector.occupied
    refine ⟨by rw [hlast]; ring, ?_⟩
    rw [hlast] at hi2
    omega

/-- C1 witness: a capacity-2 container holding one element is neither full nor
capacity-0, and indeed one more element would not exceed its capacity. -/
theorem C1_append_growth_witness :
    SJCInv ⟨some 0, 2, 0⟩ ∧
    ((((⟨some 0, 2, 0⟩ : SJCVector).size : Int) = (⟨some 0, 2, 0⟩ : SJCVector).last + 1 ∨
        (⟨some 0, 2, 0⟩ : SJCVector).size = 0) ↔
      (((⟨some 0, 2, 0⟩ : SJCVector).size : Int) <
        SJCVector.occupied ⟨some 0, 2, 0⟩ + 1)) :=
  ⟨by decide, C1_append_growth.2.1 ⟨some 0, 2, 0⟩ (by decide)⟩

/-- C10: under the state invariant the geometric rule `2*capacity + 1` always
yields strictly more capacity than the occupied-count, so `push_back`'s
defensive "push_back fail due to full" branch never runs: every append
inserts, incrementing `last_` and the occupied-count. -/
theorem C10_defensive_branch_unreachable (h : Heap) (v : SJCVector) (x : Int)
    (hv : SJCInv v) :
    v.occupied < ((2 * v.size + 1 : Nat) : Int) ∧
    (push_back h v x).2.last = v.last + 1 ∧
    (push_back h v x).2.occupied = v.occupied + 1 := by
  obtain ⟨h1, h2⟩ := hv
  refine ⟨?_, push_back_last_of_inv h v x ⟨h1, h2⟩, ?_⟩
  · unfold SJCVector.occupied
    push_cast
    omega
  · unfold SJCVector.occupied
    rw [push_back_last_of_inv h v x ⟨h1, h2⟩]

/-- C10 witness: appending to a full one-slot container inserts after
growing. -/
theorem C10_defensive_branch_unreachable_witness :
    SJCInv ⟨some 0, 1, 0⟩ ∧
    (push_back ⟨[some [4]]⟩ ⟨some 0, 1, 0⟩ 7).2.last = 0 + 1 :=
  ⟨by decide,
    (C10_defensive_branch_unreachable ⟨[some [4]]⟩ ⟨some 0, 1, 0⟩ 7 (by decide)).2.1⟩

/-- C7: every container reachable through any sequence of the public
operations satisfies `0 ≤ lastIndex + 1 ≤ capacity`. -/
theorem C7_state_invariant (v : SJCVector) (hr : Reachable v) :
    0 ≤ v.last + 1 ∧ v.last + 1 ≤ (v.size : Int) := by
  induction hr with
  | ctor h c => exact mkSJCVector_inv h c
  | copy h a _ ih => exact ⟨ih.1, ih.2⟩
  | moveDst a _ ih => exact ⟨ih.1, ih.2⟩
  | moveSrc a _ _ =>
    constructor
    · show (0 : Int) ≤ -1 + 1
      norm_num
    · show (-1 : Int) + 1 ≤ ((0 : Nat) : Int)
      norm_num
  | push h a x _ ih => exact push_back_inv h a x ih
  | resize h a n _ ih => exact resizeN_inv h a n ih
  | add h a b _ _ iha _ =>
    by_cases hcond : b.size = 0 ∨ a.size = 0 ∨ b.last ≠ a.last
    · have : (opAdd h a b).2 = (mkSJCVector h 1).2 := by
        unfold opAdd
        rw [if_pos hcond]
      rw [this]
      exact mkSJCVector_inv h 1
    · have : (opAdd h a b).2 = (copyCtor h a).2 := by
        unfold opAdd
        rw [if_neg hcond]
      rw [this]
      exact ⟨iha.1, iha.2⟩
  | acopy h t r _ _ _ ihr => exact ⟨ihr.1, ihr.2⟩
  | amoveDst h t r _ _ _ ihr => exact ⟨ihr.1, ihr.2⟩
  | amoveSrc h t r _ _ _ _ =>
    constructor
    · show (0 : Int) ≤ -1 + 1
      norm_num
    · show (-1 : Int) + 1 ≤ ((0 : Nat) : Int)
      norm_num

/-- C7 witness: the default-constructed container satisfies the invariant. -/
theorem C7_state_invariant_witness :
    0 ≤ (mkSJCVector ⟨[]⟩ 1).2.last + 1 ∧
    (mkSJCVector ⟨[]⟩ 1).2.last + 1 ≤ ((mkSJCVector ⟨[]⟩ 1).2.size : Int) :=
  C7_state_invariant (mkSJCVector ⟨[]⟩ 1).2 (Reachable.ctor ⟨[]⟩ 1)

/-- C8 counterexample: `initSJCVector` imposes no minimum, so constructing
with requested capacity `0` yields capacity `0`, not `max 0 1 = 1`. -/
theorem C8_counterexample :
    (mkSJCVector ⟨[]⟩ 0).2.last + 1 = 0 ∧
    (mkSJCVector ⟨[]⟩ 0).2.size = 0 ∧
    (mkSJCVector ⟨[]⟩ 0).2.size ≠ max 0 1 := by decide

/-- C8 amended: a newly constructed container has occupied-count 0 and
capacity exactly the requested capacity `c` (the no-argument constructor
passes `c = 1`; `c = 0` yields capacity `0`), and the copy constructor of the
`unique_ptr` variants reproduces the source's capacity — so capacity ≥ 1 is
not guaranteed when `c = 0`. -/
theorem C8_construction (h : Heap) (c : Nat) (a : SJCVector) :
    (mkSJCVector h c).2.last + 1 = 0 ∧
    (mkSJCVector h c).2.size = c ∧
    (copyCtor h a).2.size = a.size := by
  refine ⟨?_, rfl, rfl⟩
  rw [mkSJCVector_snd]
  norm_num

/-- C9 counterexample: the first `push_back` on the freshly constructed
capacity-1 empty container of the demo does NOT grow before inserting — the
grow condition `size_ == last_ + 1 || size_ == 0` is false for capacity 1
with 0 occupied slots, so capacity stays 1 after the first append (the claim
asserts such a container "still grows before the first insert"). -/
theorem C9_counterexample :
    mainTrace0.2.size = 1 ∧ mainTrace0.2.last + 1 = 0 ∧
    mainTrace1.2.size = 1 ∧ mainTrace1.2.last + 1 = 1 := by decide

/-- C9 amended: the demo container (capacity 1, empty) after appending 3 and
then 56 has occupied-count 2, contents `[3, 56]` and capacity 3; the growth
`1 → 2*1+1 = 3` happens on the second append, when the container is full —
not before the first insert. -/
theorem C9_demo_trace :
    mainTrace2.2.occupied = 2 ∧
    contents mainTrace2.1 mainTrace2.2 = [3, 56] ∧
    mainTrace2.2.size = 3 ∧
    mainTrace1.2.size = 1 ∧
    mainTrace2.2.size = 2 * mainTrace1.2.size + 1 := by decide

/-- C3 (code bug): for a full capacity-3 container, `resize(2)` in the
`unique_ptr` variants passes `std::copy` an end iterator of
`std::next(srcBegin, size_)` — `size_ = 3` elements — while the freshly
allocated destination holds only 2 slots: 3 > 2, an out-of-bounds write.
The claim's bound `min(occupied, newCapacity) = min(3, 2) = 2` is what the
raw-pointer template variant (and the commented-out earlier line) copies. -/
theorem C3_resize_copy_bound :
    resizeCopyCount ⟨some 0, 3, 2⟩ = 3 ∧
    (resizeN ⟨[some [1, 2, 3]]⟩ ⟨some 0, 3, 2⟩ 2).2.size = 2 ∧
    2 < resizeCopyCount ⟨some 0, 3, 2⟩ ∧
    min (SJCVector.occupied ⟨some 0, 3, 2⟩) 2 = 2 ∧
    rawResizeCopyCount ⟨some 0, 3, 2⟩ 2 = 2 := by decide

theorem selfAssign_eq (h : Heap) (a : SJCVector) :
    selfAssign h a = (destruct (copyCtor h a).1 a, (copyCtor h a).2) := rfl

/-- C5: move construction transfers the whole record, so the destination's
contents and occupied-count equal the source's pre-move ones in any heap; the
moved-from source is null with capacity 0 and occupied-count 0, and its
destructor frees nothing.  Move assignment (the by-value operator on an
rvalue) hands the target the source's buffer, capacity and cursor — contents
preserved, the target's old buffer released — and leaves the source empty. -/
theorem C5_move_correctness (h : Heap) (a target rhs : SJCVector)
    (hd : rhs.ptr = none ∨ target.ptr ≠ rhs.ptr) :
    (moveCtor a).1 = a ∧
    (moveCtor a).2.ptr = none ∧ (moveCtor a).2.size = 0 ∧
    (moveCtor a).2.occupied = 0 ∧
    destruct h (moveCtor a).2 = h ∧
    (assignMove h target rhs).2.1 = rhs ∧
    contents (assignMove h target rhs).1 (assignMove h target rhs).2.1 = contents h rhs ∧
    (assignMove h target rhs).2.2.ptr = none ∧
    (assignMove h target rhs).2.2.occupied = 0 := by
  refine ⟨rfl, rfl, rfl, ?_, rfl, rfl, ?_, rfl, ?_⟩
  · show (-1 : Int) + 1 = 0
    norm_num
  · show contents (destruct h target) rhs = contents h rhs
    apply contents_congr
    intro p hp
    cases hpt : target.ptr with
    | none =>
      unfold destruct
      rw [hpt]
    | some pt =>
      have hne2 : p ≠ pt := by
        rcases hd with hnone | hneq
        · rw [hnone] at hp
          exact absurd hp (by simp)
        · intro hcontra
          apply hneq
          rw [hpt, hp, hcontra]
      unfold destruct
      rw [hpt]
      exact Heap.cell_free_ne h hne2
  · show (-1 : Int) + 1 = 0
    norm_num

/-- C5 witness: moving a one-element container into a distinct target keeps
its contents. -/
theorem C5_move_correctness_witness :
    ((⟨some 1, 1, 0⟩ : SJCVector).ptr = none ∨
      (⟨some 0, 1, 0⟩ : SJCVector).ptr ≠ (⟨some 1, 1, 0⟩ : SJCVector).ptr) ∧
    contents (assignMove ⟨[some [7], some [9]]⟩ ⟨some 0, 1, 0⟩ ⟨some 1, 1, 0⟩).1
        (assignMove ⟨[some [7], some [9]]⟩ ⟨some 0, 1, 0⟩ ⟨some 1, 1, 0⟩).2.1 =
      contents ⟨[some [7], some [9]]⟩ ⟨some 1, 1, 0⟩ :=
  ⟨by decide,
    (C5_move_correctness ⟨[some [7], some [9]]⟩ ⟨some 1, 1, 0⟩ ⟨some 0, 1, 0⟩
      ⟨some 1, 1, 0⟩ (by decide)).2.2.2.2.2.2.1⟩

/-- C6: self-assignment `a = a` through the by-value operator leaves the
capacity, the cursor and the contents unchanged, and the old buffer is
released exactly once — it is still live in the intermediate heap built by
the copy constructor (so the single `free` hits a live cell: no double free)
and is gone afterwards. -/
theorem C6_self_assignment_safe (h : Heap) (a : SJCVector) (hv : Valid h a) :
    (selfAssign h a).2.size = a.size ∧
    (selfAssign h a).2.last = a.last ∧
    contents (selfAssign h a).1 (selfAssign h a).2 = contents h a ∧
    ∀ p, a.ptr = some p →
      ((copyCtor h a).1.cell p).isSome ∧ (selfAssign h a).1.cell p = none := by
  have hcellself := copyCtor_readBuf_of_valid hv
  refine ⟨rfl, rfl, ?_, ?_⟩
  · have hkey : (destruct (copyCtor h a).1 a).cell h.cells.length = some (readBuf h a) := by
      cases hpa : a.ptr with
      | none =>
        unfold destruct
        rw [hpa]
        exact hcellself
      | some pa =>
        have hlt : pa < h.cells.length := hv.ptr_lt hpa
        unfold destruct
        rw [hpa]
        rw [Heap.cell_free_ne _ (Nat.ne_of_gt hlt)]
        exact hcellself
    show (((destruct (copyCtor h a).1 a).cell h.cells.length).getD []).take
        (a.last + 1).toNat = contents h a
    rw [hkey]
    rfl
  · intro p hp
    have hlt : p < h.cells.length := hv.ptr_lt hp
    constructor
    · rw [copyCtor_cell_frame h a hlt]
      rcases hv.cell_eq hp with ⟨arr, hcell, _⟩
      rw [hcell]
      rfl
    · rw [selfAssign_eq]
      show (destruct (copyCtor h a).1 a).cell p = none
      unfold destruct
      rw [hp]
      apply Heap.cell_free_self
      rw [copyCtor_length]
      exact Nat.lt_succ_of_lt hlt

/-- C6 witness: self-assigning a concrete two-element container preserves its
contents, and its old buffer is live before the temp's destructor and freed
after. -/
theorem C6_self_assignment_safe_witness :
    Valid ⟨[some [5, 7]]⟩ ⟨some 0, 2, 1⟩ ∧
    contents (selfAssign ⟨[some [5, 7]]⟩ ⟨some 0, 2, 1⟩).1
        (selfAssign ⟨[some [5, 7]]⟩ ⟨some 0, 2, 1⟩).2 =
      contents ⟨[some [5, 7]]⟩ ⟨some 0, 2, 1⟩ :=
  ⟨by decide,
    (C6_self_assignment_safe ⟨[some [5, 7]]⟩ ⟨some 0, 2, 1⟩ (by decide)).2.2.1⟩

/-- C4: a copy is independent of its source: the copy owns a distinct buffer
holding the same contents with the same capacity and cursor, appending to the
copy leaves the source's contents unchanged, and appending to the source
leaves the copy's contents unchanged. -/
theorem C4_copy_independence (h : Heap) (a : SJCVector) (x y : Int)
    (hv : Valid h a) :
    (copyCtor h a).2.ptr ≠ a.ptr ∧
    (copyCtor h a).2.size = a.size ∧
    (copyCtor h a).2.last = a.last ∧
    contents (copyCtor h a).1 (copyCtor h a).2 = contents h a ∧
    contents (copyCtor h a).1 a = contents h a ∧
    contents (push_back (copyCtor h a).1 (copyCtor h a).2 x).1 a = contents h a ∧
    contents (push_back (copyCtor h a).1 a y).1 (copyCtor h a).2 =
      contents (copyCtor h a).1 (copyCtor h a).2 := by
  have hane : a.ptr ≠ some h.cells.length := valid_ptr_ne_fresh hv
  have hlen1 : (copyCtor h a).1.cells.length = h.cells.length + 1 := copyCtor_length h a
  have hcellself := copyCtor_readBuf_of_valid hv
  have hframe : ∀ p, a.ptr = some p → (copyCtor h a).1.cell p = h.cell p := by
    intro p hp
    exact copyCtor_cell_frame h a (hv.ptr_lt hp)
  refine ⟨?_, rfl, rfl, ?_, contents_congr hframe, ?_, ?_⟩
  · rw [copyCtor_ptr]
    exact fun hh => hane hh.symm
  · show (((copyCtor h a).1.cell h.cells.length).getD []).take (a.last + 1).toNat
        = contents h a
    rw [hcellself]
    rfl
  · have hstep : ∀ p, a.ptr = some p →
        (push_back (copyCtor h a).1 (copyCtor h a).2 x).1.cell p
          = (copyCtor h a).1.cell p := by
      intro p hp
      have hlt : p < h.cells.length := hv.ptr_lt hp
      apply push_back_cell_frame
      · rw [hlen1]
        exact Nat.lt_succ_of_lt hlt
      · rw [copyCtor_ptr]
        intro hh
        rw [Option.some.injEq] at hh
        exact absurd hh.symm (Nat.ne_of_lt hlt)
    calc contents (push_back (copyCtor h a).1 (copyCtor h a).2 x).1 a
        = contents (copyCtor h a).1 a := contents_congr hstep
      _ = contents h a := contents_congr hframe
  · apply contents_congr
    intro p hp
    rw [copyCtor_ptr, Option.some.injEq] at hp
    rw [← hp]
    apply push_back_cell_frame
    · rw [hlen1]
      exact Nat.lt_succ_self _
    · exact hane

/-- C4 witness: appending to the copy of a concrete one-element container
leaves the source's contents intact. -/
theorem C4_copy_independence_witness :
    Valid ⟨[some [5]]⟩ ⟨some 0, 1, 0⟩ ∧
    contents (push_back (copyCtor ⟨[some [5]]⟩ ⟨some 0, 1, 0⟩).1
        (copyCtor ⟨[some [5]]⟩ ⟨some 0, 1, 0⟩).2 2).1 ⟨some 0, 1, 0⟩ =
      contents ⟨[some [5]]⟩ ⟨some 0, 1, 0⟩ :=
  ⟨by decide,
    (C4_copy_independence ⟨[some [5]]⟩ ⟨some 0, 1, 0⟩ 2 3 (by decide)).2.2.2.2.2.1⟩

/-- C2 amended: for operands with nonzero capacity and equal `last_` cursors
(in particular any two non-empty containers of equal occupied-count),
`operator+` returns a freshly allocated container — independent of both
operands, whose contents it leaves untouched — with the operands' cursor and
the left operand's capacity, holding the element-wise sums; the
empty-default-container failure sentinel is returned exactly when an
operand's capacity is `0` or the cursors differ (an empty operand with
nonzero capacity and matching cursor is NOT rejected). -/
theorem C2_elementwise_add (h : Heap) (a b : SJCVector)
    (hva : Valid h a) (hvb : Valid h b) (hia : SJCInv a) (hib : SJCInv b)
    (hnemp : 0 ≤ a.last) (heq : b.last = a.last) :
    (opAdd h a b).2.last = a.last ∧
    (opAdd h a b).2.size = a.size ∧
    (opAdd h a b).2.ptr = some h.cells.length ∧
    (opAdd h a b).2.ptr ≠ a.ptr ∧
    (opAdd h a b).2.ptr ≠ b.ptr ∧
    contents (opAdd h a b).1 (opAdd h a b).2 =
      List.zipWith (· + ·) (contents h a) (contents h b) ∧
    contents (opAdd h a b).1 a = contents h a ∧
    contents (opAdd h a b).1 b = contents h b ∧
    (∀ (h' : Heap) (c d : SJCVector), (d.size = 0 ∨ c.size = 0 ∨ d.last ≠ c.last) →
      opAdd h' c d = mkSJCVector h' 1) := by
  obtain ⟨hia1, hia2⟩ := hia
  obtain ⟨hib1, hib2⟩ := hib
  have hsa : ¬a.size = 0 := by omega
  have hsb : ¬b.size = 0 := by omega
  have hcond : ¬(b.size = 0 ∨ a.size = 0 ∨ b.last ≠ a.last) := by
    push_neg
    exact ⟨hsb, hsa, heq⟩
  obtain ⟨pa, hpa⟩ : ∃ pa, a.ptr = some pa := by
    cases hpa : a.ptr with
    | none =>
      unfold Valid at hva
      rw [hpa] at hva
      exact absurd hva hsa
    | some pa => exact ⟨pa, rfl⟩
  obtain ⟨qb, hqb⟩ : ∃ qb, b.ptr = some qb := by
    cases hqb : b.ptr with
    | none =>
      unfold Valid at hvb
      rw [hqb] at hvb
      exact absurd hvb hsb
    | some qb => exact ⟨qb, rfl⟩
  obtain ⟨arrA, hcA, hlA⟩ := hva.cell_eq hpa
  obtain ⟨arrB, hcB, hlB⟩ := hvb.cell_eq hqb
  have hsnd : (opAdd h a b).2 = (copyCtor h a).2 := by
    unfold opAdd
    rw [if_neg hcond]
  have hfst : (opAdd h a b).1 =
      (copyCtor h a).1.writeCell h.cells.length
        (List.zipWith (· + ·)
          ((((copyCtor h a).1.cell h.cells.length).getD []).take (a.last + 1).toNat)
          ((((copyCtor h a).1.cell qb).getD []).take (a.last + 1).toNat) ++
          (((copyCtor h a).1.cell h.cells.length).getD []).drop (a.last + 1).toNat) := by
    unfold opAdd
    rw [if_neg hcond]
    dsimp only
    rw [copyCtor_ptr, hqb]
  have hx : ((copyCtor h a).1.cell h.cells.length).getD [] = arrA := by
    rw [copyCtor_readBuf_of_valid hva]
    simp [readBuf, hpa, hcA]
  have hy : ((copyCtor h a).1.cell qb).getD [] = arrB := by
    rw [copyCtor_cell_frame h a (hvb.ptr_lt hqb), hcB]
    rfl
  have hca : contents h a = arrA.take (a.last + 1).toNat := by
    unfold contents
    rw [show readBuf h a = arrA by simp [readBuf, hpa, hcA]]
  have hcb : contents h b = arrB.take (a.last + 1).toNat := by
    unfold contents
    rw [show readBuf h b = arrB by simp [readBuf, hqb, hcB], heq]
  refine ⟨by rw [hsnd]; rfl, by rw [hsnd]; rfl, by rw [hsnd, copyCtor_ptr], ?_, ?_, ?_,
    ?_, ?_, ?_⟩
  · rw [hsnd, copyCtor_ptr, hpa]
    intro hh
    rw [Option.some.injEq] at hh
    exact absurd hh.symm (Nat.ne_of_lt (hva.ptr_lt hpa))
  · rw [hsnd, copyCtor_ptr, hqb]
    intro hh
    rw [Option.some.injEq] at hh
    exact absurd hh.symm (Nat.ne_of_lt (hvb.ptr_lt hqb))
  · rw [hfst, hsnd]
    have hwr : ((copyCtor h a).1.writeCell h.cells.length
        (List.zipWith (· + ·) (arrA.take (a.last + 1).toNat)
          (arrB.take (a.last + 1).toNat) ++ arrA.drop (a.last + 1).toNat)).cell
          h.cells.length =
        some (List.zipWith (· + ·) (arrA.take (a.last + 1).toNat)
          (arrB.take (a.last + 1).toNat) ++ arrA.drop (a.last + 1).toNat) := by
      apply Heap.cell_writeCell_self
      rw [copyCtor_length]
      exact Nat.lt_succ_self _
    rw [hx, hy]
    show (((((copyCtor h a).1.writeCell h.cells.length _)).cell h.cells.length).getD
        []).take (a.last + 1).toNat = _
    rw [hwr]
    rw [hca, hcb]
    apply List.take_left'
    rw [List.length_zipWith, List.length_take, List.length_take]
    omega
  · apply contents_congr
    intro p hp
    have hplt : p < h.cells.length := hva.ptr_lt hp
    rw [hfst, Heap.cell_writeCell_ne _ _ (Nat.ne_of_lt hplt)]
    exact copyCtor_cell_frame h a hplt
  · apply contents_congr
    intro p hp
    have hplt : p < h.cells.length := hvb.ptr_lt hp
    rw [hfst, Heap.cell_writeCell_ne _ _ (Nat.ne_of_lt hplt)]
    exact copyCtor_cell_frame h a hplt
  · intro h' c d hcnd
    unfold opAdd
    rw [if_pos hcnd]

/-- C2 counterexample: two EMPTY containers (occupied-count 0) of capacity 2
with equal `last_` are not rejected by `operator+` — the code tests
`size_ == 0` (capacity), not emptiness — and the result is a capacity-2 copy
of the left operand, not the empty DEFAULT container (capacity 1) the claim
promises for empty operands. -/
theorem C2_counterexample :
    SJCVector.occupied ⟨some 0, 2, -1⟩ = 0 ∧
    SJCVector.occupied ⟨some 1, 2, -1⟩ = 0 ∧
    Valid ⟨[some [0, 0], some [0, 0]]⟩ ⟨some 0, 2, -1⟩ ∧
    Valid ⟨[some [0, 0], some [0, 0]]⟩ ⟨some 1, 2, -1⟩ ∧
    (opAdd ⟨[some [0, 0], some [0, 0]]⟩ ⟨some 0, 2, -1⟩ ⟨some 1, 2, -1⟩).2.size = 2 ∧
    (mkSJCVector ⟨[some [0, 0], some [0, 0]]⟩ 1).2.size = 1 := by decide

/-- C2 witness: adding `[1, 2]` and `[10, 20]` (capacity-3 containers with
`last_ = 1`) yields the element-wise sums. -/
theorem C2_elementwise_add_witness :
    0 ≤ (⟨some 0, 3, 1⟩ : SJCVector).last ∧
    contents (opAdd ⟨[some [1, 2, 0], some [10, 20, 30]]⟩ ⟨some 0, 3, 1⟩
          ⟨some 1, 3, 1⟩).1
        (opAdd ⟨[some [1, 2, 0], some [10, 20, 30]]⟩ ⟨some 0, 3, 1⟩
          ⟨some 1, 3, 1⟩).2 =
      List.zipWith (· + ·)
        (contents ⟨[some [1, 2, 0], some [10, 20, 30]]⟩ ⟨some 0, 3, 1⟩)
        (contents ⟨[some [1, 2, 0], some [10, 20, 30]]⟩ ⟨some 1, 3, 1⟩) :=
  ⟨by decide,
    (C2_elementwise_add ⟨[some [1, 2, 0], some [10, 20, 30]]⟩ ⟨some 0, 3, 1⟩
      ⟨some 1, 3, 1⟩ (by decide) (by decide) (by decide) (by decide) (by decide)
      (by decide)).2.2.2.2.2.1⟩
